import Mathlib

/-!
Shallow embedding of the Polymarket copy-trading bot's core monitoring loop.

The embedding follows the TypeScript sources:
  * the data model (`Trade` in src/types.ts),
  * the monitoring loop (`monitorAndCopyTrades`, `executeCopyTrade`,
    `adjustPriceForSlippage`, `tradeKey`, the `seen` set and `MAX_SEEN`
    in the copy-trader engine module),
  * the order gateway (`placeOrder` in src/api/clobClient.ts), and
  * the feed gateway normalization (`getUserTrades` in src/api/clobClient.ts).

Machine numbers are modelled as rationals; JavaScript `NaN` at the feed
boundary is modelled as `Option.none`.  Thrown-and-caught JavaScript errors
are modelled by total functions returning `Option.none` where the catch
swallows the fault.  The outcome of the remote venue call is abstracted by
a `submitOk` predicate so that theorems quantify over every possible
submission outcome.
-/

namespace PolyBot

/-- Order side, the TypeScript string union BUY | SELL (src/types.ts). -/
inductive Side where
  | BUY : Side
  | SELL : Side
deriving DecidableEq, Repr

/-- Rendering of a side as the string used in template literals. -/
def sideStr : Side → String
  | Side.BUY => "BUY"
  | Side.SELL => "SELL"

/-- A fill of the source trader, the `Trade` interface of src/types.ts. -/
structure Trade where
  id : String
  orderId : String
  marketId : String
  tokenId : String
  outcome : Int
  side : Side
  price : ℚ
  size : ℚ
  timestamp : Int
  traderAddress : String
deriving DecidableEq, Repr

/-- The trading parameters of the configuration (src/config.ts) that the
monitoring loop reads. -/
structure Config where
  riskPercentage : ℚ
  maxPositionSize : ℚ
  slippageTolerance : ℚ
deriving Repr

/-- An order request as handed to the venue gateway `placeOrder`. -/
structure OrderReq where
  tokenId : String
  side : Side
  price : ℚ
  size : ℚ
deriving DecidableEq, Repr

/-- Ceiling of the dedup set, `const MAX_SEEN = 10000` in the engine module. -/
def MAX_SEEN : Nat := 10000

/-- Key derivation of the deduplicator (`tradeKey`):
transaction hash when present (truthy), otherwise the composite fallback
template string over market, token, side, price, size and timestamp. -/
def tradeKey (t : Trade) : String :=
  if t.orderId ≠ "" then t.orderId
  else
    t.marketId ++ ":" ++ t.tokenId ++ ":" ++ sideStr t.side ++ ":" ++
      toString t.price ++ ":" ++ toString t.size ++ ":" ++ toString t.timestamp

/-- One check-and-mark step of the dedup filter body: membership test on the
`seen` set, insert when absent, and clear the whole set when its size
exceeds `MAX_SEEN` right after the insert.  The JavaScript `Set` is
modelled as an insertion-ordered duplicate-free list. -/
def isNewAndMark (seen : List String) (key : String) : Bool × List String :=
  if key ∈ seen then (false, seen)
  else
    let seen' := seen ++ [key]
    if MAX_SEEN < seen'.length then (true, [])
    else (true, seen')

/-- The stateful `candidates.filter` pass of `monitorAndCopyTrades`: the
predicate is evaluated left to right, mutating the `seen` set. -/
def dedupFilter (seen : List String) : List Trade → List Trade × List String
  | [] => ([], seen)
  | t :: ts =>
    let r := isNewAndMark seen (tradeKey t)
    let rest := dedupFilter r.2 ts
    (if r.1 then t :: rest.1 else rest.1, rest.2)

/-- Slippage adjustment (`adjustPriceForSlippage`): buys pay up by the
tolerance fraction, sells accept less, floored at zero. -/
def adjustPriceForSlippage (slippageTolerance : ℚ) (midPrice : ℚ) (side : Side) : ℚ :=
  let slippageAdjustment := midPrice * (slippageTolerance / 100)
  if side = Side.BUY then midPrice + slippageAdjustment
  else max 0 (midPrice - slippageAdjustment)

/-- Risk-scaled and capped order size, the two sizing lines of
`executeCopyTrade` (`scaledSize` then `cappedSize = Math.min`). -/
def scaledCappedSize (riskPercentage maxPositionSize sourceSize : ℚ) : ℚ :=
  min (sourceSize * (riskPercentage / 100)) maxPositionSize

/-- Venue gateway `placeOrder` of src/api/clobClient.ts.  Its synchronous
validation throws on a short token id, a price outside the open unit
interval, or a non-positive size; every throw is caught by the caller
(`executeCopyTrade`), so the function is modelled as returning `none` on
those paths.  The outcome of the remote `createAndPostOrder` call is
abstracted by `submitOk`; a transport failure is likewise caught and
modelled as `none`. -/
def placeOrder (submitOk : OrderReq → Bool) (tokenId : String) (side : Side)
    (price : ℚ) (size : ℚ) : Option OrderReq :=
  if tokenId = "" ∨ tokenId.length < 10 then none
  else if price ≤ 0 ∨ 1 ≤ price then none
  else if size ≤ 0 then none
  else if submitOk ⟨tokenId, side, price, size⟩ then some ⟨tokenId, side, price, size⟩
  else none

/-- One copy attempt, `executeCopyTrade`: skip on missing or short token id,
scale and cap the size, skip when the capped size is non-positive, adjust
the price for slippage, then hand off to `placeOrder`.  The surrounding
try/catch swallows every fault, so the model is a total function whose
`none` result means that no submission was produced. -/
def executeCopyTrade (cfg : Config) (submitOk : OrderReq → Bool) (t : Trade) :
    Option OrderReq :=
  if t.tokenId = "" ∨ t.tokenId.length < 10 then none
  else
    let scaledSize := t.size * (cfg.riskPercentage / 100)
    let cappedSize := min scaledSize cfg.maxPositionSize
    if cappedSize ≤ 0 then none
    else
      let adjustedPrice := adjustPriceForSlippage cfg.slippageTolerance t.price t.side
      placeOrder submitOk t.tokenId t.side adjustedPrice cappedSize

/-- The window filter of the tick:
`trades.filter(t => t.timestamp >= lastProcessedTimestamp)`. -/
def candidatesOf (lastProcessedTimestamp : Int) (trades : List Trade) : List Trade :=
  trades.filter (fun t => lastProcessedTimestamp ≤ t.timestamp)

/-- Comparison used by the chronological sort of the tick. -/
def tsLE (a b : Trade) : Prop := a.timestamp ≤ b.timestamp

instance : DecidableRel tsLE := fun a b => inferInstanceAs (Decidable (a.timestamp ≤ b.timestamp))

instance : IsTotal Trade tsLE := ⟨fun a b => Int.le_total a.timestamp b.timestamp⟩

instance : IsTrans Trade tsLE := ⟨fun _ _ _ h1 h2 => le_trans h1 h2⟩

/-- The stable ascending sort `newTrades.sort((a, b) => a.timestamp - b.timestamp)`. -/
def sortByTimestamp (l : List Trade) : List Trade := l.insertionSort tsLE

/-- The dispatch loop of the tick: each surviving fill is attempted in list
order and, regardless of the attempt's outcome, the high-water mark is
advanced to `max(lastProcessedTimestamp, t.timestamp)` afterwards. -/
def dispatchAll (cfg : Config) (submitOk : OrderReq → Bool) :
    Int → List Trade → Int × List OrderReq
  | hwm, [] => (hwm, [])
  | hwm, t :: ts =>
    let sub := executeCopyTrade cfg submitOk t
    let rest := dispatchAll cfg submitOk (max hwm t.timestamp) ts
    (rest.1, sub.toList ++ rest.2)

/-- Mutable module state of the monitoring loop: the high-water mark
`lastProcessedTimestamp` and the dedup set `seen`. -/
structure MonitorState where
  lastProcessedTimestamp : Int
  seen : List String
deriving DecidableEq, Repr

/-- One tick of `monitorAndCopyTrades` after the fetch: the early return on
an empty page, the window filter, the stateful dedup filter, the early
return when no new trade survived, the ascending sort and the dispatch
loop.  Returns the new module state and the submissions of the tick. -/
def processTrades (cfg : Config) (submitOk : OrderReq → Bool)
    (st : MonitorState) (trades : List Trade) : MonitorState × List OrderReq :=
  if trades.isEmpty then (st, [])
  else
    let candidates := candidatesOf st.lastProcessedTimestamp trades
    let r := dedupFilter st.seen candidates
    if r.1.isEmpty then ({ st with seen := r.2 }, [])
    else
      let sorted := sortByTimestamp r.1
      let d := dispatchAll cfg submitOk st.lastProcessedTimestamp sorted
      ({ lastProcessedTimestamp := d.1, seen := r.2 }, d.2)

/-- Iterated check-and-mark, used to state the overflow behaviour of the
seen set under a stream of keys. -/
def insertKeys (seen : List String) (keys : List String) : List String :=
  keys.foldl (fun s k => (isNewAndMark s k).2) seen

/-- A JSON-shaped value of a raw Data-API row field: absent (or null),
a string, or a finite number. -/
inductive JSVal where
  | undefined : JSVal
  | str : String → JSVal
  | num : ℚ → JSVal
deriving DecidableEq, Repr

/-- JavaScript nullish coalescing `v ?? d`. -/
def coalesce (v d : JSVal) : JSVal :=
  match v with
  | JSVal.undefined => d
  | _ => v

/-- JavaScript string conversion `String(v)` as used on row fields.  The
decimal rendering of a number is approximated by the rational `toString`;
no theorem below depends on the exact digits. -/
def jsToString : JSVal → String
  | JSVal.undefined => "undefined"
  | JSVal.str s => s
  | JSVal.num q => toString q

/-- Model of `String.prototype.toUpperCase` (ASCII range). -/
def jsToUpperCase (s : String) : String := String.mk (s.data.map Char.toUpper)

/-- Digit run helpers for the numeric parsing builtins. -/
def digitsToNat (ds : List Char) : Nat :=
  ds.foldl (fun n c => 10 * n + (c.toNat - Char.toNat '0')) 0

/-- Split a leading run of decimal digits. -/
def takeDigits (cs : List Char) : List Char × List Char :=
  (cs.takeWhile Char.isDigit, cs.dropWhile Char.isDigit)

/-- Parse an optional sign; returns whether the value is negated. -/
def parseSign : List Char → Bool × List Char
  | '-' :: cs => (true, cs)
  | '+' :: cs => (false, cs)
  | cs => (false, cs)

/-- Whitespace test for the numeric builtins. -/
def isJsSpace (c : Char) : Prop := c = ' ' ∨ c = '\t' ∨ c = '\n' ∨ c = '\r'

instance : DecidablePred isJsSpace := fun c =>
  inferInstanceAs (Decidable (c = ' ' ∨ c = '\t' ∨ c = '\n' ∨ c = '\r'))

/-- Exponent suffix of a decimal literal; an `e` not followed by digits is
ignored, as `parseFloat` does. -/
def parseExponent (cs : List Char) : Int :=
  match cs with
  | 'e' :: rest | 'E' :: rest =>
    let sgn := parseSign rest
    let ds := takeDigits sgn.2
    if ds.1.isEmpty then 0
    else if sgn.1 then -(digitsToNat ds.1 : Int) else (digitsToNat ds.1 : Int)
  | _ => 0

/-- Mantissa value of integer digits and fraction digits. -/
def mantissa (intDs fracDs : List Char) : ℚ :=
  (digitsToNat intDs : ℚ) + (digitsToNat fracDs : ℚ) / ((10 : ℚ) ^ fracDs.length)

/-- Model of the JavaScript builtin `parseFloat`: skip leading whitespace,
parse the longest decimal-literal prefix, and produce `none` (NaN) when no
digit is found.  `Infinity` and exotic forms are outside the model; no
theorem depends on them. -/
def parseFloat (s : String) : Option ℚ :=
  let cs := s.data.dropWhile (fun c => decide (isJsSpace c))
  let sgn := parseSign cs
  let ip := takeDigits sgn.2
  let fp :=
    match ip.2 with
    | '.' :: rest => takeDigits rest
    | _ => ([], ip.2)
  if ip.1.isEmpty ∧ fp.1.isEmpty then none
  else
    let e := parseExponent fp.2
    let v := mantissa ip.1 fp.1 * (10 : ℚ) ^ e
    some (if sgn.1 then -v else v)

/-- Model of the JavaScript builtin `Number` on strings: the trimmed empty
string converts to zero, otherwise the whole trimmed string must be a
decimal literal, else the result is NaN (`none`). -/
def numberOfString (s : String) : Option ℚ :=
  let cs := ((s.data.dropWhile (fun c => decide (isJsSpace c))).reverse.dropWhile
    (fun c => decide (isJsSpace c))).reverse
  if cs.isEmpty then some 0
  else
    let sgn := parseSign cs
    let ip := takeDigits sgn.2
    let fp :=
      match ip.2 with
      | '.' :: rest => takeDigits rest
      | _ => ([], ip.2)
    if ip.1.isEmpty ∧ fp.1.isEmpty then none
    else
      match fp.2 with
      | [] => some (if sgn.1 then -(mantissa ip.1 fp.1) else mantissa ip.1 fp.1)
      | 'e' :: rest | 'E' :: rest =>
        let esgn := parseSign rest
        let eds := takeDigits esgn.2
        if eds.1.isEmpty ∨ ¬ eds.2.isEmpty then none
        else
          let e : Int := if esgn.1 then -(digitsToNat eds.1 : Int) else (digitsToNat eds.1 : Int)
          let v := mantissa ip.1 fp.1 * (10 : ℚ) ^ e
          some (if sgn.1 then -v else v)
      | _ => none

/-- JavaScript `Number(v)` coercion on row values; `none` is NaN. -/
def jsNumber : JSVal → Option ℚ
  | JSVal.undefined => none
  | JSVal.str s => numberOfString s
  | JSVal.num q => some q

/-- A raw Data-API trade row as received by `getUserTrades`, before
normalization; every field may be absent or of an unexpected type. -/
structure RawRow where
  transactionHash : JSVal
  conditionId : JSVal
  asset : JSVal
  outcomeIndex : JSVal
  side : JSVal
  price : JSVal
  size : JSVal
  timestamp : JSVal
  proxyWallet : JSVal
deriving DecidableEq, Repr

/-- A normalized fill as produced by the feed gateway; numeric fields are
`Option ℚ` with `none` standing for NaN. -/
structure NormTrade where
  id : String
  orderId : String
  marketId : String
  tokenId : String
  outcome : Option ℚ
  side : Side
  price : Option ℚ
  size : Option ℚ
  timestamp : Option ℚ
  traderAddress : String
deriving DecidableEq, Repr

/-- Side coercion of the feed normalization:
`String(t.side ?? 'BUY').toUpperCase() === 'SELL' ? 'SELL' : 'BUY'`. -/
def coerceSide (v : JSVal) : Side :=
  if jsToUpperCase (jsToString (coalesce v (JSVal.str "BUY"))) = "SELL" then Side.SELL
  else Side.BUY

/-- Numeric field coercion of the feed normalization:
`typeof v === 'string' ? parseFloat(v) : Number(v ?? 0)`. -/
def coerceNumField (v : JSVal) : Option ℚ :=
  match v with
  | JSVal.str s => parseFloat s
  | _ => jsNumber (coalesce v (JSVal.num 0))

/-- Normalization of one raw row inside `getUserTrades` (src/api/clobClient.ts):
string fields are coalesced to defaults, `side` is coerced to BUY or SELL,
and `price` / `size` go through the string-aware numeric coercion while
`outcomeIndex` and `timestamp` go through `Number(v ?? 0)`. -/
def normalizeRow (userAddress : String) (t : RawRow) : NormTrade :=
  { id := jsToString t.transactionHash ++ ":" ++ jsToString t.asset ++ ":" ++
      jsToString t.timestamp
    orderId := jsToString (coalesce t.transactionHash (JSVal.str ""))
    marketId := jsToString (coalesce t.conditionId (JSVal.str ""))
    tokenId := jsToString (coalesce t.asset (JSVal.str ""))
    outcome := jsNumber (coalesce t.outcomeIndex (JSVal.num 0))
    side := coerceSide t.side
    price := coerceNumField t.price
    size := coerceNumField t.size
    timestamp := jsNumber (coalesce t.timestamp (JSVal.num 0))
    traderAddress := jsToString (coalesce t.proxyWallet (JSVal.str userAddress)) }

/-- The row-mapping body of `getUserTrades`: every row of the page is
normalized; no row is filtered out. -/
def getUserTradesMap (userAddress : String) (rows : List RawRow) : List NormTrade :=
  rows.map (normalizeRow userAddress)

/-- Submission oracle that accepts every order; used for concrete runs. -/
def okTrue : OrderReq → Bool := fun _ => true

/-- Concrete configuration for concrete runs: risk 2 percent, position cap
1000, zero slippage tolerance. -/
def cfgWit : Config :=
  { riskPercentage := 2, maxPositionSize := 1000, slippageTolerance := 0 }

/-- Concrete valid fill used in concrete runs. -/
def tWit : Trade :=
  { id := "", orderId := "txw", marketId := "m", tokenId := "TOKEN-0001X",
    outcome := 0, side := Side.BUY, price := 1/2, size := 100, timestamp := 5,
    traderAddress := "" }

/-- Expected submission for `tWit` under `cfgWit`. -/
def reqWit : OrderReq :=
  { tokenId := "TOKEN-0001X", side := Side.BUY, price := 1/2, size := 2 }

/-- Concrete fill whose key is already marked in the seen set. -/
def tDup : Trade :=
  { id := "", orderId := "txd", marketId := "m", tokenId := "TOKEN-0002X",
    outcome := 0, side := Side.BUY, price := 0, size := 1, timestamp := 7,
    traderAddress := "" }

/-- Concrete fill with an empty instrument identifier. -/
def tEmptyTok : Trade :=
  { id := "", orderId := "txe", marketId := "m", tokenId := "",
    outcome := 0, side := Side.BUY, price := 0, size := 1, timestamp := 0,
    traderAddress := "" }

/-- Concrete fill with a three-character instrument identifier. -/
def tShortTok : Trade :=
  { id := "", orderId := "txs", marketId := "m", tokenId := "abc",
    outcome := 0, side := Side.BUY, price := 0, size := 1, timestamp := 0,
    traderAddress := "" }

/-- Concrete fill with timestamp 1. -/
def trT1 : Trade :=
  { id := "", orderId := "t1", marketId := "m", tokenId := "TOKEN-T001X",
    outcome := 0, side := Side.BUY, price := 0, size := 1, timestamp := 1,
    traderAddress := "" }

/-- Concrete fill with timestamp 3. -/
def trT3 : Trade :=
  { id := "", orderId := "t3", marketId := "m", tokenId := "TOKEN-T003X",
    outcome := 0, side := Side.BUY, price := 0, size := 1, timestamp := 3,
    traderAddress := "" }

/-- Concrete fill with timestamp 5. -/
def trT5 : Trade :=
  { id := "", orderId := "t5", marketId := "m", tokenId := "TOKEN-T005X",
    outcome := 0, side := Side.BUY, price := 0, size := 1, timestamp := 5,
    traderAddress := "" }

/-- Concrete fill with timestamp 100, at the window boundary. -/
def trB100 : Trade :=
  { id := "", orderId := "b100", marketId := "m", tokenId := "TOKEN-B100X",
    outcome := 0, side := Side.BUY, price := 0, size := 1, timestamp := 100,
    traderAddress := "" }

/-- Concrete fill with timestamp 99, below the window boundary. -/
def trB99 : Trade :=
  { id := "", orderId := "b99", marketId := "m", tokenId := "TOKEN-B099X",
    outcome := 0, side := Side.BUY, price := 0, size := 1, timestamp := 99,
    traderAddress := "" }

/-- Concrete fill with timestamp 101, above the window boundary. -/
def trB101 : Trade :=
  { id := "", orderId := "b101", marketId := "m", tokenId := "TOKEN-B101X",
    outcome := 0, side := Side.BUY, price := 0, size := 1, timestamp := 101,
    traderAddress := "" }

/-- Distinct keys indexed by length, for concrete overflow runs. -/
def c6key (n : Nat) : String := String.mk (List.replicate n 'a')

/-- A list of `MAX_SEEN + 1` distinct keys. -/
def c6keys : List String := (List.range (MAX_SEEN + 1)).map c6key

/-- Concrete raw row whose price field is a non-numeric string. -/
def badRow : RawRow :=
  { transactionHash := JSVal.str "0xabc", conditionId := JSVal.str "c1",
    asset := JSVal.str "tok", outcomeIndex := JSVal.num 0,
    side := JSVal.str "BUY", price := JSVal.str "abc", size := JSVal.num 5,
    timestamp := JSVal.num 100, proxyWallet := JSVal.str "0xw" }

/-- Concrete raw row whose price field is absent. -/
def missingPriceRow : RawRow :=
  { transactionHash := JSVal.str "0xdef", conditionId := JSVal.str "c2",
    asset := JSVal.str "tok2", outcomeIndex := JSVal.num 0,
    side := JSVal.str "SELL", price := JSVal.undefined, size := JSVal.num 5,
    timestamp := JSVal.num 100, proxyWallet := JSVal.str "0xw" }

/-! Helper lemmas about the dispatch loop. -/

/-- The final high-water mark of the dispatch loop is the left fold of
`max` over the timestamps of the dispatched fills. -/
theorem dispatchAll_fst_eq_foldl (cfg : Config) (submitOk : OrderReq → Bool) :
    ∀ (ts : List Trade) (hwm : Int),
      (dispatchAll cfg submitOk hwm ts).1 =
        ts.foldl (fun h t => max h t.timestamp) hwm := by
  intro ts
  induction ts with
  | nil => intro hwm; rfl
  | cons t ts ih =>
    intro hwm
    simp only [dispatchAll, List.foldl_cons]
    exact ih (max hwm t.timestamp)

/-- The seed is a lower bound of the `max` fold over timestamps. -/
theorem le_foldl_max : ∀ (ts : List Trade) (hwm : Int),
    hwm ≤ ts.foldl (fun h t => max h t.timestamp) hwm := by
  intro ts
  induction ts with
  | nil => intro hwm; exact le_refl hwm
  | cons t ts ih =>
    intro hwm
    simp only [List.foldl_cons]
    exact le_trans (le_max_left hwm t.timestamp) (ih (max hwm t.timestamp))

/-- The submissions of the dispatch loop are the order requests produced by
the copy attempts, in the order of the dispatched list. -/
theorem dispatchAll_snd_eq_filterMap (cfg : Config) (submitOk : OrderReq → Bool) :
    ∀ (ts : List Trade) (hwm : Int),
      (dispatchAll cfg submitOk hwm ts).2 =
        ts.filterMap (executeCopyTrade cfg submitOk) := by
  intro ts
  induction ts with
  | nil => intro hwm; rfl
  | cons t ts ih =>
    intro hwm
    simp only [dispatchAll, List.filterMap_cons]
    cases h : executeCopyTrade cfg submitOk t with
    | none => simp [h, ih (max hwm t.timestamp)]
    | some req => simp [h, ih (max hwm t.timestamp)]

/-- A successful copy attempt submits exactly the token, side, the
slippage-adjusted price and the risk-scaled capped size of the fill. -/
theorem executeCopyTrade_some_eq (cfg : Config) (submitOk : OrderReq → Bool)
    (t : Trade) (req : OrderReq) (h : executeCopyTrade cfg submitOk t = some req) :
    req = ⟨t.tokenId, t.side,
      adjustPriceForSlippage cfg.slippageTolerance t.price t.side,
      scaledCappedSize cfg.riskPercentage cfg.maxPositionSize t.size⟩ := by
  simp only [executeCopyTrade, placeOrder] at h
  repeat' split at h
  all_goals first
    | exact Option.noConfusion h
    | (injection h with h2; exact h2.symm)

/-- C2: the high-water mark never decreases across a tick; inside the
dispatch loop it is advanced to `max(highWaterMark, fill.timestamp)` after
each fill's attempt, and the resulting mark does not depend on whether any
submission succeeded, failed or was skipped. -/
theorem highWaterMark_monotone :
    (∀ (cfg : Config) (submitOk : OrderReq → Bool) (st : MonitorState)
        (trades : List Trade),
        st.lastProcessedTimestamp ≤
          (processTrades cfg submitOk st trades).1.lastProcessedTimestamp) ∧
    (∀ (cfg : Config) (submitOk : OrderReq → Bool) (hwm : Int) (trades : List Trade),
        (dispatchAll cfg submitOk hwm trades).1 =
          trades.foldl (fun h t => max h t.timestamp) hwm) ∧
    (∀ (cfg cfg' : Config) (submitOk submitOk' : OrderReq → Bool) (hwm : Int)
        (trades : List Trade),
        (dispatchAll cfg submitOk hwm trades).1 =
          (dispatchAll cfg' submitOk' hwm trades).1) := by
  refine ⟨?_, ?_, ?_⟩
  · intro cfg submitOk st trades
    by_cases h1 : trades.isEmpty
    · simp [processTrades, h1]
    · by_cases h2 :
        (dedupFilter st.seen (candidatesOf st.lastProcessedTimestamp trades)).1.isEmpty
      · simp [processTrades, h1, h2]
      · simp only [processTrades, h1, h2, if_false]
        rw [dispatchAll_fst_eq_foldl]
        exact le_foldl_max _ _
  · intro cfg submitOk hwm trades
    exact dispatchAll_fst_eq_foldl cfg submitOk trades hwm
  · intro cfg cfg' submitOk submitOk' hwm trades
    rw [dispatchAll_fst_eq_foldl, dispatchAll_fst_eq_foldl]

/-- C8: the window filter of a tick keeps exactly the fetched fills whose
timestamp is at or above the current high-water mark, and the kept fills
are what the deduplicator consumes; a fill exactly at the mark is kept. -/
theorem window_filter_boundary :
    (∀ (hwm : Int) (trades : List Trade) (t : Trade),
        t ∈ candidatesOf hwm trades ↔ t ∈ trades ∧ hwm ≤ t.timestamp) ∧
    (∀ (cfg : Config) (submitOk : OrderReq → Bool) (st : MonitorState)
        (trades : List Trade),
        (processTrades cfg submitOk st trades).1.seen =
          if trades.isEmpty then st.seen
          else (dedupFilter st.seen (candidatesOf st.lastProcessedTimestamp trades)).2) ∧
    (candidatesOf 100 [trB100, trB99, trB101]).map Trade.timestamp = [100, 101] := by
  refine ⟨?_, ?_, by decide⟩
  · intro hwm trades t
    simp [candidatesOf, List.mem_filter]
  · intro cfg submitOk st trades
    by_cases h1 : trades.isEmpty
    · simp [processTrades, h1]
    · by_cases h2 :
        (dedupFilter st.seen (candidatesOf st.lastProcessedTimestamp trades)).1.isEmpty
      · simp [processTrades, h1, h2]
      · simp [processTrades, h1, h2]

/-- Concrete successful copy attempt: `tWit` under `cfgWit` is submitted as
`reqWit`. -/
theorem execWit : executeCopyTrade cfgWit okTrue tWit = some reqWit := by
  norm_num [executeCopyTrade, placeOrder, adjustPriceForSlippage, cfgWit, tWit,
    okTrue, reqWit, min_def, String.length]
  exact ⟨by decide, fun h => absurd h (by decide)⟩

/-- C4: slippage pricing: a BUY is priced at `base * (1 + tol / 100)`, a
SELL at `max 0 (base * (1 - tol / 100))`; a successful copy attempt submits
exactly that adjusted price; and concretely `adjustedPrice(0.50, BUY, 0.5)
= 0.5025`, `adjustedPrice(0.50, SELL, 0.5) = 0.4975`, and
`adjustedPrice(0.001, SELL, 100) = 0`. -/
theorem slippage_price_adjustment :
    (∀ tol b : ℚ, adjustPriceForSlippage tol b Side.BUY = b * (1 + tol / 100)) ∧
    (∀ tol b : ℚ, adjustPriceForSlippage tol b Side.SELL = max 0 (b * (1 - tol / 100))) ∧
    (∀ (cfg : Config) (submitOk : OrderReq → Bool) (t : Trade) (req : OrderReq),
        executeCopyTrade cfg submitOk t = some req →
        req.price = adjustPriceForSlippage cfg.slippageTolerance t.price t.side) ∧
    adjustPriceForSlippage 0.5 0.5 Side.BUY = 0.5025 ∧
    adjustPriceForSlippage 0.5 0.5 Side.SELL = 0.4975 ∧
    adjustPriceForSlippage 100 0.001 Side.SELL = 0 := by
  have hBUY : ∀ tol b : ℚ, adjustPriceForSlippage tol b Side.BUY = b * (1 + tol / 100) := by
    intro tol b
    simp only [adjustPriceForSlippage, eq_self_iff_true, if_true]
    ring
  have hSELL : ∀ tol b : ℚ,
      adjustPriceForSlippage tol b Side.SELL = max 0 (b * (1 - tol / 100)) := by
    intro tol b
    have hns : ¬ (Side.SELL = Side.BUY) := by decide
    simp only [adjustPriceForSlippage, if_neg hns]
    rw [show b - b * (tol / 100) = b * (1 - tol / 100) by ring]
  refine ⟨hBUY, hSELL, ?_, ?_, ?_, ?_⟩
  · intro cfg submitOk t req h
    rw [executeCopyTrade_some_eq cfg submitOk t req h]
  · rw [hBUY]; norm_num
  · rw [hSELL]
    rw [max_eq_right (by norm_num : (0:ℚ) ≤ 0.5 * (1 - 0.5 / 100))]
    norm_num
  · rw [hSELL]
    norm_num

/-- Witness for C4 at a concrete fill. -/
theorem slippage_price_adjustment_witness :
    executeCopyTrade cfgWit okTrue tWit = some reqWit ∧
    reqWit.price = adjustPriceForSlippage cfgWit.slippageTolerance tWit.price tWit.side :=
  ⟨execWit, slippage_price_adjustment.2.2.1 cfgWit okTrue tWit reqWit execWit⟩

/-- C3: risk-scaled sizing: a successful copy attempt submits exactly
`min(sourceSize * riskPercentage / 100, maxPositionSize)`; a non-positive
computed size makes the attempt a skip; and concretely
`scaledSize(100, 2, 1000) = 2` and `scaledSize(100000, 2, 1000) = 1000`. -/
theorem risk_scaled_sizing :
    (∀ (cfg : Config) (submitOk : OrderReq → Bool) (t : Trade) (req : OrderReq),
        executeCopyTrade cfg submitOk t = some req →
        req.size = scaledCappedSize cfg.riskPercentage cfg.maxPositionSize t.size) ∧
    (∀ (cfg : Config) (submitOk : OrderReq → Bool) (t : Trade),
        scaledCappedSize cfg.riskPercentage cfg.maxPositionSize t.size ≤ 0 →
        executeCopyTrade cfg submitOk t = none) ∧
    (∀ r m s : ℚ, scaledCappedSize r m s = min (s * r / 100) m) ∧
    scaledCappedSize 2 1000 100 = 2 ∧
    scaledCappedSize 2 1000 100000 = 1000 := by
  refine ⟨?_, ?_, ?_, ?_, ?_⟩
  · intro cfg submitOk t req h
    rw [executeCopyTrade_some_eq cfg submitOk t req h]
  · intro cfg submitOk t h
    unfold scaledCappedSize at h
    simp only [executeCopyTrade]
    by_cases h1 : t.tokenId = "" ∨ t.tokenId.length < 10
    · rw [if_pos h1]
    · rw [if_neg h1, if_pos h]
  · intro r m s
    unfold scaledCappedSize
    rw [show s * (r / 100) = s * r / 100 by ring]
  · rw [show scaledCappedSize 2 1000 100 = min ((100:ℚ) * (2 / 100)) 1000 from rfl]
    rw [min_eq_left (by norm_num)]
    norm_num
  · rw [show scaledCappedSize 2 1000 100000 = min ((100000:ℚ) * (2 / 100)) 1000 from rfl]
    rw [min_eq_right (by norm_num)]

/-- Witness for C3 at a concrete fill. -/
theorem risk_scaled_sizing_witness :
    executeCopyTrade cfgWit okTrue tWit = some reqWit ∧
    reqWit.size = scaledCappedSize cfgWit.riskPercentage cfgWit.maxPositionSize tWit.size :=
  ⟨execWit, risk_scaled_sizing.1 cfgWit okTrue tWit reqWit execWit⟩

/-- C7: a fill with a missing or short instrument identifier, an adjusted
price outside the open unit interval, or a non-positive scaled size never
produces a submission and never lets a fault escape: the attempt is the
total function `executeCopyTrade` returning `none`.  In particular an empty
or three-character identifier yields no submission. -/
theorem invalid_fill_skip :
    (∀ (cfg : Config) (submitOk : OrderReq → Bool) (t : Trade),
        (t.tokenId = "" ∨ t.tokenId.length < 10 ∨
          adjustPriceForSlippage cfg.slippageTolerance t.price t.side ≤ 0 ∨
          1 ≤ adjustPriceForSlippage cfg.slippageTolerance t.price t.side ∨
          scaledCappedSize cfg.riskPercentage cfg.maxPositionSize t.size ≤ 0) →
        executeCopyTrade cfg submitOk t = none) ∧
    (∀ (cfg : Config) (submitOk : OrderReq → Bool) (t : Trade),
        t.tokenId.length = 0 ∨ t.tokenId.length = 3 →
        executeCopyTrade cfg submitOk t = none) := by
  have main : ∀ (cfg : Config) (submitOk : OrderReq → Bool) (t : Trade),
      (t.tokenId = "" ∨ t.tokenId.length < 10 ∨
        adjustPriceForSlippage cfg.slippageTolerance t.price t.side ≤ 0 ∨
        1 ≤ adjustPriceForSlippage cfg.slippageTolerance t.price t.side ∨
        scaledCappedSize cfg.riskPercentage cfg.maxPositionSize t.size ≤ 0) →
      executeCopyTrade cfg submitOk t = none := by
    intro cfg submitOk t h
    by_cases h1 : t.tokenId = "" ∨ t.tokenId.length < 10
    · simp only [executeCopyTrade]
      rw [if_pos h1]
    · have h1' := not_or.mp h1
      rcases h with h | h | h | h | h
      · exact absurd h h1'.1
      · exact absurd h h1'.2
      · simp only [executeCopyTrade]
        rw [if_neg h1]
        by_cases h2 : min (t.size * (cfg.riskPercentage / 100)) cfg.maxPositionSize ≤ 0
        · rw [if_pos h2]
        · rw [if_neg h2]
          simp only [placeOrder]
          rw [if_neg h1, if_pos (Or.inl h)]
      · simp only [executeCopyTrade]
        rw [if_neg h1]
        by_cases h2 : min (t.size * (cfg.riskPercentage / 100)) cfg.maxPositionSize ≤ 0
        · rw [if_pos h2]
        · rw [if_neg h2]
          simp only [placeOrder]
          rw [if_neg h1, if_pos (Or.inr h)]
      · unfold scaledCappedSize at h
        simp only [executeCopyTrade]
        rw [if_neg h1, if_pos h]
  refine ⟨main, ?_⟩
  intro cfg submitOk t h
  apply main
  rcases h with h | h
  · exact Or.inr (Or.inl (by omega))
  · exact Or.inr (Or.inl (by omega))

/-- Witness for C7 at concrete fills with empty and three-character
instrument identifiers. -/
theorem invalid_fill_skip_witness :
    (tEmptyTok.tokenId = "" ∧ tShortTok.tokenId.length = 3) ∧
    executeCopyTrade cfgWit okTrue tEmptyTok = none ∧
    executeCopyTrade cfgWit okTrue tShortTok = none :=
  ⟨⟨rfl, by decide⟩,
    invalid_fill_skip.1 cfgWit okTrue tEmptyTok (Or.inl rfl),
    invalid_fill_skip.2 cfgWit okTrue tShortTok (Or.inr (by decide))⟩

/-- Master lemma on the dedup filter while no overflow clear can occur
(enough headroom below `MAX_SEEN`): the final seen set is the initial one
extended by the keys of the accepted fills, the accepted keys are
duplicate-free, none of them was already marked, and every processed fill's
key ends up marked. -/
theorem dedupFilter_no_overflow :
    ∀ (ts : List Trade) (seen : List String), seen.length + ts.length ≤ MAX_SEEN →
      (dedupFilter seen ts).2 = seen ++ (dedupFilter seen ts).1.map tradeKey ∧
      ((dedupFilter seen ts).1.map tradeKey).Nodup ∧
      (∀ t ∈ (dedupFilter seen ts).1, tradeKey t ∉ seen) ∧
      (∀ t ∈ ts, tradeKey t ∈ (dedupFilter seen ts).2) := by
  intro ts
  induction ts with
  | nil =>
    intro seen _
    refine ⟨by simp [dedupFilter], by simp [dedupFilter], ?_, ?_⟩
    · intro t ht; simp [dedupFilter] at ht
    · intro t ht; simp at ht
  | cons t ts ih =>
    intro seen h
    by_cases hk : tradeKey t ∈ seen
    · have h' : seen.length + ts.length ≤ MAX_SEEN := by
        simp only [List.length_cons] at h; omega
      have hred : dedupFilter seen (t :: ts) = dedupFilter seen ts := by
        simp [dedupFilter, isNewAndMark, hk]
      obtain ⟨ih1, ih2, ih3, ih4⟩ := ih seen h'
      rw [hred]
      refine ⟨ih1, ih2, ih3, ?_⟩
      intro t' ht'
      rcases List.mem_cons.mp ht' with heq | ht'
      · rw [heq, ih1]
        exact List.mem_append_left _ hk
      · exact ih4 t' ht'
    · have hnc : ¬ MAX_SEEN < seen.length + 1 := by
        simp only [List.length_cons] at h
        omega
      have hred : dedupFilter seen (t :: ts) =
          (t :: (dedupFilter (seen ++ [tradeKey t]) ts).1,
            (dedupFilter (seen ++ [tradeKey t]) ts).2) := by
        simp [dedupFilter, isNewAndMark, hk, hnc]
      have h' : (seen ++ [tradeKey t]).length + ts.length ≤ MAX_SEEN := by
        simp only [List.length_append, List.length_cons, List.length_nil] at h ⊢
        omega
      obtain ⟨ih1, ih2, ih3, ih4⟩ := ih (seen ++ [tradeKey t]) h'
      rw [hred]
      refine ⟨?_, ?_, ?_, ?_⟩
      · rw [ih1]
        simp
      · simp only [List.map_cons, List.nodup_cons]
        refine ⟨?_, ih2⟩
        intro hmem
        obtain ⟨t', ht', hkey⟩ := List.mem_map.mp hmem
        have hni := ih3 t' ht'
        rw [hkey] at hni
        exact hni (List.mem_append_right _ (List.mem_singleton_self _))
      · intro t' ht'
        rcases List.mem_cons.mp ht' with heq | ht'
        · rw [heq]; exact hk
        · have hni := ih3 t' ht'
          intro hmem
          exact hni (List.mem_append_left _ hmem)
      · intro t' ht'
        rcases List.mem_cons.mp ht' with heq | ht'
        · rw [heq, ih1]
          exact List.mem_append_left _ (List.mem_append_right _ (List.mem_singleton_self _))
        · exact ih4 t' ht'

/-- C1: deduplication is exactly once per key while no overflow clear can
occur: a fill whose key is already marked is never accepted again, each key
occurs at most once among the accepted fills of a tick, and every processed
fill's key is marked afterwards, so the identical fill is dropped in the
same tick and in any later tick. -/
theorem dedup_exactly_once (seen : List String) (ts : List Trade)
    (h : seen.length + ts.length ≤ MAX_SEEN) :
    (∀ t ∈ ts, tradeKey t ∈ seen → t ∉ (dedupFilter seen ts).1) ∧
    (∀ key : String, ((dedupFilter seen ts).1.map tradeKey).count key ≤ 1) ∧
    (∀ t ∈ ts, tradeKey t ∈ (dedupFilter seen ts).2) := by
  obtain ⟨_, h2, h3, h4⟩ := dedupFilter_no_overflow ts seen h
  refine ⟨?_, ?_, h4⟩
  · intro t _ hseen hmem
    exact h3 t hmem hseen
  · exact fun key => List.nodup_iff_count_le_one.mp h2 key

/-- Witness for C1: a fill whose transaction key is already marked is not
accepted again. -/
theorem dedup_exactly_once_witness :
    ((["txd"] : List String).length + [tDup].length ≤ MAX_SEEN) ∧
    tDup ∉ (dedupFilter ["txd"] [tDup]).1 :=
  ⟨by decide,
    (dedup_exactly_once ["txd"] [tDup] (by decide)).1 tDup (by decide) (by decide)⟩

/-- One check-and-mark step keeps the seen set within the ceiling. -/
theorem isNewAndMark_length_le (seen : List String) (key : String)
    (h : seen.length ≤ MAX_SEEN) : ((isNewAndMark seen key).2).length ≤ MAX_SEEN := by
  unfold isNewAndMark
  by_cases hk : key ∈ seen
  · rw [if_pos hk]
    exact h
  · rw [if_neg hk]
    by_cases hov : MAX_SEEN < (seen ++ [key]).length
    · simp only [hov, if_true]
      simp
    · simp only [hov, if_false]
      exact not_lt.mp hov

/-- The dedup filter keeps the seen set within the ceiling. -/
theorem dedupFilter_length_le :
    ∀ (ts : List Trade) (seen : List String), seen.length ≤ MAX_SEEN →
      ((dedupFilter seen ts).2).length ≤ MAX_SEEN := by
  intro ts
  induction ts with
  | nil => intro seen h; exact h
  | cons t ts ih =>
    intro seen h
    have hstep := isNewAndMark_length_le seen (tradeKey t) h
    have hred : (dedupFilter seen (t :: ts)).2 =
        (dedupFilter (isNewAndMark seen (tradeKey t)).2 ts).2 := rfl
    rw [hred]
    exact ih _ hstep

/-- Unfolding step of the iterated check-and-mark. -/
theorem insertKeys_cons (seen : List String) (k : String) (ks : List String) :
    insertKeys seen (k :: ks) = insertKeys (isNewAndMark seen k).2 ks := rfl

/-- Inserting fresh distinct keys until the ceiling is exceeded by exactly
one clears the set. -/
theorem insertKeys_overflow :
    ∀ (keys seen : List String), keys ≠ [] → keys.Nodup →
      (∀ k ∈ keys, k ∉ seen) → seen.length + keys.length = MAX_SEEN + 1 →
      (insertKeys seen keys).length = 0 := by
  intro keys
  induction keys with
  | nil => intro seen hne; exact absurd rfl hne
  | cons k ks ih =>
    intro seen _ hnd hfresh hlen
    have hk : k ∉ seen := hfresh k (List.mem_cons_self k ks)
    cases ks with
    | nil =>
      have hov : MAX_SEEN < (seen ++ [k]).length := by
        simp only [List.length_cons, List.length_nil] at hlen
        simp only [List.length_append, List.length_singleton]
        omega
      have hstep : (isNewAndMark seen k).2 = [] := by
        unfold isNewAndMark
        rw [if_neg hk, if_pos hov]
      rw [insertKeys_cons, hstep]
      rfl
    | cons k2 ks2 =>
      have hnov : ¬ MAX_SEEN < (seen ++ [k]).length := by
        simp only [List.length_cons] at hlen
        simp only [List.length_append, List.length_singleton]
        omega
      have hstep : (isNewAndMark seen k).2 = seen ++ [k] := by
        unfold isNewAndMark
        rw [if_neg hk, if_neg hnov]
      rw [insertKeys_cons, hstep]
      apply ih (seen ++ [k]) (by simp) (List.Nodup.of_cons hnd)
      · intro k' hk'
        intro hmem
        rcases List.mem_append.mp hmem with hmem | hmem
        · exact hfresh k' (List.mem_cons_of_mem k hk') hmem
        · rw [List.mem_singleton] at hmem
          rw [hmem] at hk'
          exact (List.nodup_cons.mp hnd).1 hk'
      · simp only [List.length_append, List.length_cons, List.length_nil] at hlen ⊢
        omega

/-- C6: the seen set is cleared, not LRU-evicted, the moment an insert
makes it exceed `MAX_SEEN`; hence one check-and-mark step and a whole dedup
pass preserve the size bound, and inserting `MAX_SEEN + 1` distinct keys
into the empty set leaves the reported size at zero. -/
theorem seen_set_overflow_reset :
    (∀ (seen : List String) (key : String), seen.length ≤ MAX_SEEN →
        ((isNewAndMark seen key).2).length ≤ MAX_SEEN) ∧
    (∀ (seen : List String) (ts : List Trade), seen.length ≤ MAX_SEEN →
        ((dedupFilter seen ts).2).length ≤ MAX_SEEN) ∧
    (∀ (seen : List String) (key : String), seen.length = MAX_SEEN → key ∉ seen →
        (isNewAndMark seen key).2 = []) ∧
    (∀ keys : List String, keys.Nodup → keys.length = MAX_SEEN + 1 →
        (insertKeys [] keys).length = 0) := by
  refine ⟨isNewAndMark_length_le, ?_, ?_, ?_⟩
  · intro seen ts h
    exact dedupFilter_length_le ts seen h
  · intro seen key hlen hk
    have hov : MAX_SEEN < (seen ++ [key]).length := by
      simp only [List.length_append, List.length_singleton]
      omega
    unfold isNewAndMark
    rw [if_neg hk, if_pos hov]
  · intro keys hnd hlen
    apply insertKeys_overflow keys [] ?_ hnd (by simp) (by simpa using hlen)
    intro hnil
    rw [hnil] at hlen
    simp [MAX_SEEN] at hlen

/-- Injectivity of the concrete key family. -/
theorem c6key_injective : Function.Injective c6key := by
  intro m n h
  have h2 := congrArg (fun s : String => s.data.length) h
  simpa [c6key] using h2

/-- Witness for C6: the concrete list of `MAX_SEEN + 1` distinct keys
clears the set back to size zero. -/
theorem seen_set_overflow_reset_witness :
    (c6keys.Nodup ∧ c6keys.length = MAX_SEEN + 1) ∧
    (insertKeys [] c6keys).length = 0 := by
  have hnd : c6keys.Nodup := List.Nodup.map c6key_injective (List.nodup_range _)
  have hlen : c6keys.length = MAX_SEEN + 1 := by simp [c6keys]
  exact ⟨⟨hnd, hlen⟩, seen_set_overflow_reset.2.2.2 c6keys hnd hlen⟩

/-- C5: the fills surviving the window filter and the deduplicator are
dispatched in ascending timestamp order, independently of the feed order:
the sort is a sorted permutation of the survivors, the dispatch loop
consumes the sorted list front to back, the tick's submissions are exactly
the copy attempts over the sorted survivors, and fills with timestamps
fetched as [5, 1, 3] are sorted to [1, 3, 5]. -/
theorem chronological_dispatch :
    (∀ l : List Trade, List.Sorted tsLE (sortByTimestamp l)) ∧
    (∀ l : List Trade, (sortByTimestamp l).Perm l) ∧
    (∀ (cfg : Config) (submitOk : OrderReq → Bool) (hwm : Int) (trades : List Trade),
        (dispatchAll cfg submitOk hwm trades).2 =
          trades.filterMap (executeCopyTrade cfg submitOk)) ∧
    (∀ (cfg : Config) (submitOk : OrderReq → Bool) (st : MonitorState)
        (trades : List Trade),
        (processTrades cfg submitOk st trades).2 =
          (sortByTimestamp
              (dedupFilter st.seen (candidatesOf st.lastProcessedTimestamp trades)).1).filterMap
            (executeCopyTrade cfg submitOk)) ∧
    (sortByTimestamp [trT5, trT1, trT3]).map Trade.timestamp = [1, 3, 5] := by
  refine ⟨?_, ?_, ?_, ?_, by decide⟩
  · intro l
    exact List.sorted_insertionSort tsLE l
  · intro l
    exact List.perm_insertionSort tsLE l
  · intro cfg submitOk hwm trades
    exact dispatchAll_snd_eq_filterMap cfg submitOk trades hwm
  · intro cfg submitOk st trades
    by_cases h1 : trades.isEmpty
    · have he : trades = [] := List.isEmpty_iff.mp h1
      subst he
      simp [processTrades, candidatesOf, dedupFilter, sortByTimestamp, List.insertionSort]
    · by_cases h2 :
        (dedupFilter st.seen (candidatesOf st.lastProcessedTimestamp trades)).1.isEmpty
      · have he : (dedupFilter st.seen (candidatesOf st.lastProcessedTimestamp trades)).1 = [] :=
          List.isEmpty_iff.mp h2
        simp [processTrades, h1, h2, he, sortByTimestamp, List.insertionSort]
      · simp only [processTrades, h1, h2, if_false]
        exact dispatchAll_snd_eq_filterMap cfg submitOk _ _

/-- C9 counterexample: a raw row whose price is the non-numeric string
"abc" is not dropped by the normalization; it survives as a complete record
whose price is NaN (`none`), not the zero default. -/
theorem feed_drop_counterexample :
    (getUserTradesMap "0xuser" [badRow]).length = 1 ∧
    (getUserTradesMap "0xuser" [badRow]).map NormTrade.price = [none] ∧
    (getUserTradesMap "0xuser" [badRow]).map NormTrade.price ≠ [some 0] := by
  refine ⟨rfl, by decide, by decide⟩

/-- C9 (amended): the feed normalization never drops a row — every raw row
is mapped to a structurally complete record; an absent numeric field
defaults to zero through the nullish coalescing, while a string-typed
numeric field goes through `parseFloat`, whose NaN result is surfaced in
the record rather than dropped or zeroed. -/
theorem feed_normalization_total :
    (∀ (u : String) (rows : List RawRow), (getUserTradesMap u rows).length = rows.length) ∧
    (∀ (u : String) (row : RawRow), row.price = JSVal.undefined →
        (normalizeRow u row).price = some 0) ∧
    (∀ (u : String) (row : RawRow), row.size = JSVal.undefined →
        (normalizeRow u row).size = some 0) ∧
    (∀ (u : String) (row : RawRow), row.timestamp = JSVal.undefined →
        (normalizeRow u row).timestamp = some 0) ∧
    (∀ (u : String) (row : RawRow) (s : String), row.price = JSVal.str s →
        (normalizeRow u row).price = parseFloat s) := by
  refine ⟨?_, ?_, ?_, ?_, ?_⟩
  · intro u rows
    simp [getUserTradesMap]
  · intro u row h
    simp [normalizeRow, coerceNumField, h, coalesce, jsNumber]
  · intro u row h
    simp [normalizeRow, coerceNumField, h, coalesce, jsNumber]
  · intro u row h
    simp [normalizeRow, h, coalesce, jsNumber]
  · intro u row s h
    simp [normalizeRow, coerceNumField, h]

/-- Witness for the amended C9: a row with an absent price normalizes to a
zero price. -/
theorem feed_normalization_total_witness :
    missingPriceRow.price = JSVal.undefined ∧
    (normalizeRow "0xuser" missingPriceRow).price = some 0 :=
  ⟨rfl, feed_normalization_total.2.1 "0xuser" missingPriceRow rfl⟩

/-- C10: the feed normalization coerces the side field to SELL exactly when
its string rendering uppercases to "SELL" and to BUY in every other case,
missing side included; no row is dropped for an invalid side. -/
theorem side_coercion_total :
    (∀ v : JSVal, coerceSide v = Side.SELL ↔
        jsToUpperCase (jsToString (coalesce v (JSVal.str "BUY"))) = "SELL") ∧
    (∀ (u : String) (row : RawRow), (normalizeRow u row).side = coerceSide row.side) ∧
    (∀ (u : String) (rows : List RawRow), (getUserTradesMap u rows).length = rows.length) ∧
    coerceSide JSVal.undefined = Side.BUY ∧
    coerceSide (JSVal.str "sell") = Side.SELL ∧
    coerceSide (JSVal.str "Sell") = Side.SELL ∧
    coerceSide (JSVal.str "hold") = Side.BUY := by
  refine ⟨?_, fun u row => rfl, fun u rows => by simp [getUserTradesMap],
    by decide, by decide, by decide, by decide⟩
  intro v
  unfold coerceSide
  by_cases hc : jsToUpperCase (jsToString (coalesce v (JSVal.str "BUY"))) = "SELL"
  · rw [if_pos hc]
    exact ⟨fun _ => hc, fun _ => rfl⟩
  · rw [if_neg hc]
    exact ⟨fun hh => absurd hh (by decide), fun hh => absurd hh hc⟩

end PolyBot
